import Mathlib

/-! Verification of the Mini ATM System ledger (src/app/store.py, src/app/main.py,
src/app/models.py).  Python `Decimal` values are modelled as rationals `ℚ` (every
finite decimal is a rational), `datetime` timestamps as opaque `Nat` values supplied
by the caller, and `time()` instants as rationals.  Exceptions are modelled with
`Except`; a mutating operation returns its result together with the post-state. -/

attribute [local semireducible] Rat.mul Rat.add Rat.sub Rat.inv

deriving instance DecidableEq for Except

/-- Computable floor of a rational number (numerator fdiv denominator). -/
def ratFloor (q : ℚ) : ℤ := q.num.fdiv q.den

/-- Round a rational to the nearest integer, ties away from zero.  This is the
integer core of the Python `ROUND_HALF_UP` decimal rounding mode. -/
def roundHalfUp (q : ℚ) : ℤ :=
  if 0 ≤ q then ratFloor (q + 1 / 2) else -(ratFloor (-q + 1 / 2))

/-- Embeds `_money` (src/app/store.py lines 11-13): quantize to two decimal
places with `ROUND_HALF_UP`, i.e. round to the nearest multiple of 1/100 with
ties away from zero. -/
def money (v : ℚ) : ℚ := ((roundHalfUp (100 * v) : ℤ) : ℚ) / 100

/-- Transaction record, embedding `Txn` from src/app/models.py (lines 24-28).
The `datetime` timestamp is modelled opaquely by a `Nat` supplied by the caller
in place of `datetime.now()`. -/
structure Txn where
  ts : Nat
  kind : String
  amount : ℚ
  balance : ℚ
deriving DecidableEq, Repr

/-- The errors raised by `Store` operations: `KeyError("account not found")`
from `Store._require` and `ValueError("insufficient funds")` from
`Store.withdraw`. -/
inductive StoreErr where
  | notFound
  | insufficientFunds
deriving DecidableEq, Repr

/-- Embeds the observable state of `Store` (src/app/store.py lines 15-22): the
account map `_accounts` (each account reduced to its balance, since
`account_number` is the key) and the per-account audit log `_log`.  `_log` is a
`defaultdict(list)`, so it is modelled as a total function defaulting to `[]`.
The `_locks` registry holds no ledger data; its racy lazy creation is modelled
separately below (`lockStep`). -/
structure Store where
  accounts : String → Option ℚ
  log : String → List Txn

/-- A fresh `Store()` (src/app/store.py lines 17-22). -/
def Store.empty : Store :=
  { accounts := fun _ => none, log := fun _ => [] }

/-- Embeds `Store.seed` (src/app/store.py lines 25-27). -/
def Store.seed (s : Store) : Store :=
  { s with
    accounts := fun n =>
      if n = "1001" then some (money 500)
      else if n = "1002" then some (money (125075 / 100))
      else if n = "9999" then some (money 0)
      else s.accounts n }

/-- The store as the application builds it at startup (src/app/main.py
lines 24-25): `store = Store(); store.seed()`. -/
def seeded : Store := Store.empty.seed

/-- Embeds `Store.get_balance` (src/app/store.py lines 45-47); `_require`
raises `KeyError` on an unknown account. -/
def Store.get_balance (s : Store) (n : String) : Except StoreErr ℚ :=
  match s.accounts n with
  | none => .error .notFound
  | some b => .ok (money b)

/-- Embeds `Store.deposit` (src/app/store.py lines 49-62).  Returns the result
(`Except` models the raised exceptions) together with the post-state; on an
exception no mutating statement has run, so the post-state is the input state. -/
def Store.deposit (s : Store) (n : String) (amount : ℚ) (ts : Nat) :
    Except StoreErr ℚ × Store :=
  let a := money amount
  match s.accounts n with
  | none => (.error .notFound, s)
  | some b =>
    let b' := money (b + a)
    (.ok b',
      { accounts := fun m => if m = n then some b' else s.accounts m,
        log := fun m =>
          if m = n then s.log m ++ [⟨ts, "deposit", a, b'⟩] else s.log m })

/-- Embeds `Store.withdraw` (src/app/store.py lines 64-79): normalize the
amount, require the account, raise `ValueError` when `acc.balance < amount`,
otherwise update the balance and append a `withdraw` record. -/
def Store.withdraw (s : Store) (n : String) (amount : ℚ) (ts : Nat) :
    Except StoreErr ℚ × Store :=
  let a := money amount
  match s.accounts n with
  | none => (.error .notFound, s)
  | some b =>
    if b < a then (.error .insufficientFunds, s)
    else
      let b' := money (b - a)
      (.ok b',
        { accounts := fun m => if m = n then some b' else s.accounts m,
          log := fun m =>
            if m = n then s.log m ++ [⟨ts, "withdraw", a, b'⟩] else s.log m })

/-- Embeds `Store.transactions` (src/app/store.py lines 81-83): require the
account, then return a copy of its log. -/
def Store.transactions (s : Store) (n : String) : Except StoreErr (List Txn) :=
  match s.accounts n with
  | none => .error .notFound
  | some _ => .ok (s.log n)

/-- One Store call, for reasoning about sequences of operations. -/
inductive Op where
  | deposit (n : String) (amount : ℚ) (ts : Nat)
  | withdraw (n : String) (amount : ℚ) (ts : Nat)
  | get_balance (n : String)
  | transactions (n : String)

/-- The account identifier an operation addresses. -/
def Op.account : Op → String
  | .deposit n _ _ => n
  | .withdraw n _ _ => n
  | .get_balance n => n
  | .transactions n => n

/-- The store state after one call, whether it succeeds or raises.
`get_balance` and `transactions` read without mutating `_accounts` or `_log`
contents. -/
def Store.apply (s : Store) : Op → Store
  | .deposit n a ts => (s.deposit n a ts).2
  | .withdraw n a ts => (s.withdraw n a ts).2
  | .get_balance _ => s
  | .transactions _ => s

/-- The store state after a sequence of calls. -/
def Store.run (s : Store) (ops : List Op) : Store :=
  ops.foldl Store.apply s

/-- An operation whose normalized amount cannot decrease a balance: every
deposit carries a non-negative normalized amount.  (This is what the adapter
validation guarantees, since it only lets through `amount > 0`.) -/
def Op.nonnegAmount : Op → Prop
  | .deposit _ a _ => 0 ≤ money a
  | .withdraw _ _ _ => True
  | .get_balance _ => True
  | .transactions _ => True

instance (op : Op) : Decidable op.nonnegAmount :=
  match op with
  | .deposit _ a _ => inferInstanceAs (Decidable (0 ≤ money a))
  | .withdraw _ _ _ => .isTrue trivial
  | .get_balance _ => .isTrue trivial
  | .transactions _ => .isTrue trivial

/-- Every balance the store holds is non-negative. -/
def Store.allNonneg (s : Store) : Prop :=
  ∀ n b, s.accounts n = some b → 0 ≤ b

/-- Every balance the store holds is a fixed point of `money` (it was stored
by `seed`, `deposit` or `withdraw`, all of which store `_money` outputs). -/
def Store.normalized (s : Store) : Prop :=
  ∀ n b, s.accounts n = some b → money b = b

/-- The last audit-log record of every account carries the current stored
balance of that account. -/
def Store.logConsistent (s : Store) : Prop :=
  ∀ n b, s.accounts n = some b →
    ∀ tx, (s.log n).getLast? = some tx → tx.balance = b

/-- Embeds the `positive` field validator of `MoneyChange`
(src/app/models.py lines 14-19): the adapter-level check that rejects
non-positive amounts before any Store call is made. -/
def MoneyChange.positive (v : ℚ) : Except String ℚ :=
  if v ≤ 0 then .error "amount must be > 0" else .ok v

/-- Embeds `IDEMP_TTL = 10 * 60` seconds (src/app/main.py line 28). -/
def IDEMP_TTL : ℚ := 10 * 60

/-- Embeds `idemp_cache : Dict[str, Tuple[float, dict]]` (src/app/main.py
line 29): token to (insertion instant, cached payload), the payload type `α`
left abstract. -/
structure Cache (α : Type) where
  entries : String → Option (ℚ × α)

/-- The expiry sweep at the top of `idempotent_response` (src/app/main.py
lines 33-36): drop every entry with `now - t > IDEMP_TTL`. -/
def Cache.purge {α : Type} (c : Cache α) (now : ℚ) : Cache α :=
  ⟨fun k =>
    match c.entries k with
    | none => none
    | some (t, v) => if now - t > IDEMP_TTL then none else some (t, v)⟩

/-- Embeds `idempotent_response` (src/app/main.py lines 31-44).  The wrapped
`compute` closure is modelled as a function on an explicit operation state `σ`
(running it once advances `σ` once).  In Python, `if not key` treats `None`
and the empty string as absent.  Returns (payload, post cache, post operation
state). -/
def idempotent_response {σ α : Type} (key : Option String) (compute : σ → α × σ)
    (now : ℚ) (c : Cache α) (s : σ) : α × Cache α × σ :=
  let c := c.purge now
  match key with
  | none => ((compute s).1, c, (compute s).2)
  | some k =>
    if k = "" then ((compute s).1, c, (compute s).2)
    else
      match c.entries k with
      | some (_, v) => (v, c, s)
      | none =>
        ((compute s).1,
          ⟨fun x => if x = k then some (now, (compute s).1) else c.entries x⟩,
          (compute s).2)

/-- State of the `_locks` registry restricted to one fixed account identifier:
`reg` is `self._locks.get(n)` (lock objects numbered by creation order) and
`fresh` is the number the next `Lock()` object would get. -/
structure LockReg where
  reg : Option Nat
  fresh : Nat
deriving DecidableEq, Repr

/-- Progress of one thread through `Store._get_lock` (src/app/store.py
lines 36-42): `pc = 0` before the line-38 read, `pc = 1` between the read and
the conditional create-install, `pc = 2` returned with `ret` holding the lock
it obtained. -/
structure LockThread where
  pc : Nat
  found : Option Nat
  ret : Option Nat
deriving DecidableEq, Repr

/-- One atomic step of `_get_lock` by one thread: first the line-38 dictionary
read, then the lines 39-42 check / create / install / return.  (Even at this
coarse two-step granularity the code is racy; CPython interleaves at finer
granularity still.) -/
def lockStep (g : LockReg) (t : LockThread) : LockReg × LockThread :=
  match t.pc with
  | 0 => (g, { pc := 1, found := g.reg, ret := none })
  | 1 =>
    match t.found with
    | none =>
      ({ reg := some g.fresh, fresh := g.fresh + 1 },
       { pc := 2, found := t.found, ret := some g.fresh })
    | some l => (g, { pc := 2, found := t.found, ret := some l })
  | _ => (g, t)

/-- Interleaved execution of two threads both running `_get_lock` on the same
identifier: `false` schedules a step of thread 1, `true` a step of thread 2. -/
def lockRun : List Bool → LockReg × LockThread × LockThread →
    LockReg × LockThread × LockThread
  | [], st => st
  | b :: rest, (g, t1, t2) =>
    if b then
      let gt := lockStep g t2
      lockRun rest (gt.1, t1, gt.2)
    else
      let gt := lockStep g t1
      lockRun rest (gt.1, gt.2, t2)

theorem ratFloor_eq_floor (q : ℚ) : ratFloor q = ⌊q⌋ := by
  rw [Rat.floor_def, ratFloor, Int.fdiv_eq_ediv _ (by positivity)]

theorem floor_half : ⌊(1 / 2 : ℚ)⌋ = 0 := by
  rw [Int.floor_eq_zero_iff, Set.mem_Ico]
  norm_num

theorem roundHalfUp_intCast (n : ℤ) : roundHalfUp (n : ℚ) = n := by
  unfold roundHalfUp
  rw [ratFloor_eq_floor, ratFloor_eq_floor]
  rcases le_or_lt (0 : ℚ) (n : ℚ) with h | h
  · rw [if_pos h, Int.floor_int_add, floor_half, add_zero]
  · rw [if_neg (not_le.mpr h)]
    have hc : (-(n : ℚ)) = ((-n : ℤ) : ℚ) := by push_cast; ring
    rw [hc, Int.floor_int_add, floor_half, add_zero, neg_neg]

theorem roundHalfUp_close (q : ℚ) : |((roundHalfUp q : ℤ) : ℚ) - q| ≤ 1 / 2 := by
  unfold roundHalfUp
  rcases le_or_lt (0 : ℚ) q with h | h
  · rw [if_pos h, ratFloor_eq_floor]
    have h1 : ((⌊q + 1 / 2⌋ : ℤ) : ℚ) ≤ q + 1 / 2 := Int.floor_le _
    have h2 : q + 1 / 2 < ((⌊q + 1 / 2⌋ : ℤ) : ℚ) + 1 := Int.lt_floor_add_one _
    rw [abs_le]
    constructor <;> linarith
  · rw [if_neg (not_le.mpr h), ratFloor_eq_floor]
    have h1 : ((⌊-q + 1 / 2⌋ : ℤ) : ℚ) ≤ -q + 1 / 2 := Int.floor_le _
    have h2 : -q + 1 / 2 < ((⌊-q + 1 / 2⌋ : ℤ) : ℚ) + 1 := Int.lt_floor_add_one _
    rw [abs_le]
    constructor <;> push_cast <;> linarith

theorem roundHalfUp_tie (q : ℚ) (h : |((roundHalfUp q : ℤ) : ℚ) - q| = 1 / 2) :
    |((roundHalfUp q : ℤ) : ℚ)| = |q| + 1 / 2 := by
  rcases le_or_lt (0 : ℚ) q with hq | hq
  · have hv : ((roundHalfUp q : ℤ) : ℚ) = q + 1 / 2 := by
      unfold roundHalfUp at h ⊢
      rw [if_pos hq, ratFloor_eq_floor] at h ⊢
      have h2 : q + 1 / 2 < ((⌊q + 1 / 2⌋ : ℤ) : ℚ) + 1 := Int.lt_floor_add_one _
      rcases (abs_eq (by norm_num : (0 : ℚ) ≤ 1 / 2)).mp h with h3 | h3
      · linarith
      · linarith
    rw [hv, abs_of_nonneg hq, abs_of_nonneg (by linarith : (0 : ℚ) ≤ q + 1 / 2)]
  · have hv : ((roundHalfUp q : ℤ) : ℚ) = q - 1 / 2 := by
      unfold roundHalfUp at h ⊢
      rw [if_neg (not_le.mpr hq), ratFloor_eq_floor] at h ⊢
      have h2 : -q + 1 / 2 < ((⌊-q + 1 / 2⌋ : ℤ) : ℚ) + 1 := Int.lt_floor_add_one _
      push_cast at h ⊢
      rcases (abs_eq (by norm_num : (0 : ℚ) ≤ 1 / 2)).mp h with h3 | h3
      · linarith
      · linarith
    rw [hv, abs_of_neg hq, abs_of_neg (by linarith : q - 1 / 2 < 0)]
    ring

theorem money_eq_div (x : ℚ) :
    money x = ((roundHalfUp (100 * x) : ℤ) : ℚ) / 100 := rfl

theorem money_int_div (n : ℤ) : money ((n : ℚ) / 100) = (n : ℚ) / 100 := by
  unfold money
  have h : (100 : ℚ) * ((n : ℚ) / 100) = (n : ℚ) := by ring
  rw [h, roundHalfUp_intCast]

theorem money_idem (x : ℚ) : money (money x) = money x :=
  money_int_div (roundHalfUp (100 * x))

theorem money_fix_iff (u : ℚ) : money u = u ↔ ∃ n : ℤ, u = (n : ℚ) / 100 := by
  constructor
  · intro h
    exact ⟨roundHalfUp (100 * u), h.symm.trans (money_eq_div u)⟩
  · rintro ⟨n, hn⟩
    rw [hn]
    exact money_int_div n

theorem money_fix_add {u v : ℚ} (hu : money u = u) (hv : money v = v) :
    money (u + v) = u + v := by
  obtain ⟨a, ha⟩ := (money_fix_iff u).mp hu
  obtain ⟨b, hb⟩ := (money_fix_iff v).mp hv
  rw [ha, hb]
  have h : (a : ℚ) / 100 + (b : ℚ) / 100 = ((a + b : ℤ) : ℚ) / 100 := by
    push_cast; ring
  rw [h, money_int_div]

theorem money_nonneg {x : ℚ} (h : 0 ≤ x) : 0 ≤ money x := by
  unfold money roundHalfUp
  rw [if_pos (by linarith : (0 : ℚ) ≤ 100 * x), ratFloor_eq_floor]
  have hf : (0 : ℤ) ≤ ⌊100 * x + 1 / 2⌋ := Int.floor_nonneg.mpr (by linarith)
  apply div_nonneg _ (by norm_num)
  exact_mod_cast hf

theorem money_close (x : ℚ) : |money x - x| ≤ 1 / 200 := by
  have h := roundHalfUp_close (100 * x)
  have e : money x - x = (((roundHalfUp (100 * x) : ℤ) : ℚ) - 100 * x) / 100 := by
    rw [money_eq_div]; ring
  rw [e, abs_div, abs_of_pos (by norm_num : (0 : ℚ) < 100)]
  linarith

theorem money_tie (x : ℚ) (h : |money x - x| = 1 / 200) : |money x| = |x| + 1 / 200 := by
  have e : money x - x = (((roundHalfUp (100 * x) : ℤ) : ℚ) - 100 * x) / 100 := by
    rw [money_eq_div]; ring
  have h' : |((roundHalfUp (100 * x) : ℤ) : ℚ) - 100 * x| = 1 / 2 := by
    rw [e, abs_div, abs_of_pos (by norm_num : (0 : ℚ) < 100)] at h
    linarith
  have ht := roundHalfUp_tie (100 * x) h'
  have e2 : |money x| = |((roundHalfUp (100 * x) : ℤ) : ℚ)| / 100 := by
    rw [money_eq_div, abs_div, abs_of_pos (by norm_num : (0 : ℚ) < 100)]
  rw [e2, ht, abs_mul, abs_of_pos (by norm_num : (0 : ℚ) < 100)]
  ring

/-- C6: for every finite decimal `x`, `_money x` is a value with exactly 2
fractional digits (a multiple of 1/100), is within half a cent of `x` (round to
nearest), rounds an exact halfway value away from zero (round-half-up), and is
idempotent: `_money (_money x) = _money x`. -/
theorem money_rounds_half_up_and_idem (x : ℚ) :
    (∃ n : ℤ, money x = (n : ℚ) / 100) ∧
    |money x - x| ≤ 1 / 200 ∧
    (|money x - x| = 1 / 200 → |money x| = |x| + 1 / 200) ∧
    money (money x) = money x :=
  ⟨⟨roundHalfUp (100 * x), rfl⟩, money_close x, money_tie x, money_idem x⟩

/-- Witness for C6 at the halfway input `x = 0.005`: the tie hypothesis holds
there and the rounding goes up (away from zero). -/
theorem money_rounds_half_up_and_idem_witness :
    |money (1 / 200) - 1 / 200| = 1 / 200 ∧
    |money (1 / 200)| = |(1 / 200 : ℚ)| + 1 / 200 :=
  ⟨by decide, (money_rounds_half_up_and_idem (1 / 200)).2.2.1 (by decide)⟩

/-- C9 (code bug): `Store._get_lock` is a non-atomic check-then-insert, so two
concurrent first-time callers for the same unseen identifier can each create
and return a distinct `Lock` object.  Under the schedule read(T1), read(T2),
install(T1), install(T2) both threads finish and obtain different locks
(thread 1 lock 0, thread 2 lock 1, the latter overwriting the former in the
registry), contradicting the claim that both callers converge on one and the
same exclusion primitive. -/
theorem get_lock_race :
    (lockRun [false, true, false, true]
        (⟨none, 0⟩, ⟨0, none, none⟩, ⟨0, none, none⟩)).2.1.pc = 2 ∧
    (lockRun [false, true, false, true]
        (⟨none, 0⟩, ⟨0, none, none⟩, ⟨0, none, none⟩)).2.2.pc = 2 ∧
    (lockRun [false, true, false, true]
        (⟨none, 0⟩, ⟨0, none, none⟩, ⟨0, none, none⟩)).2.1.ret = some 0 ∧
    (lockRun [false, true, false, true]
        (⟨none, 0⟩, ⟨0, none, none⟩, ⟨0, none, none⟩)).2.2.ret = some 1 ∧
    (lockRun [false, true, false, true]
        (⟨none, 0⟩, ⟨0, none, none⟩, ⟨0, none, none⟩)).2.1.ret ≠
      (lockRun [false, true, false, true]
        (⟨none, 0⟩, ⟨0, none, none⟩, ⟨0, none, none⟩)).2.2.ret := by
  decide

/-- Counterexample to C1 as stated: on the seeded store, `Store.deposit` with
the non-positive amount `-1` does not fail at all — it succeeds, drives account
9999 from balance 0 to -1, and appends a transaction record. -/
theorem deposit_nonpositive_not_rejected_cex :
    (seeded.deposit "9999" (-1) 0).1 = .ok (-1) ∧
    (seeded.deposit "9999" (-1) 0).2.accounts "9999" = some (-1) ∧
    ((seeded.deposit "9999" (-1) 0).2.log "9999").length = 1 := by
  refine ⟨?_, ?_, ?_⟩ <;> decide

theorem Store.deposit_some {s : Store} {n : String} {b : ℚ}
    (hb : s.accounts n = some b) (x : ℚ) (ts : Nat) :
    s.deposit n x ts =
      (.ok (money (b + money x)),
        { accounts := fun m =>
            if m = n then some (money (b + money x)) else s.accounts m,
          log := fun m =>
            if m = n then
              s.log m ++ [⟨ts, "deposit", money x, money (b + money x)⟩]
            else s.log m }) := by
  simp [Store.deposit, hb]

theorem Store.withdraw_some_lt {s : Store} {n : String} {b : ℚ}
    (hb : s.accounts n = some b) (x : ℚ) (ts : Nat) (h : b < money x) :
    s.withdraw n x ts = (.error .insufficientFunds, s) := by
  simp [Store.withdraw, hb, h]

theorem Store.withdraw_some_ge {s : Store} {n : String} {b : ℚ}
    (hb : s.accounts n = some b) (x : ℚ) (ts : Nat) (h : ¬b < money x) :
    s.withdraw n x ts =
      (.ok (money (b - money x)),
        { accounts := fun m =>
            if m = n then some (money (b - money x)) else s.accounts m,
          log := fun m =>
            if m = n then
              s.log m ++ [⟨ts, "withdraw", money x, money (b - money x)⟩]
            else s.log m }) := by
  simp [Store.withdraw, hb, h]

/-- C2: for an existing account with balance `b`, `Store.withdraw` fails with
insufficient funds exactly when `b < _money x`, succeeds exactly when
`_money x ≤ b` (boundary included), and a failing call returns the store
exactly as it was (balance and transaction log untouched). -/
theorem withdraw_insufficient_iff (s : Store) (n : String) (b x : ℚ) (ts : Nat)
    (hb : s.accounts n = some b) :
    ((s.withdraw n x ts).1 = .error .insufficientFunds ↔ b < money x) ∧
    ((∃ r, (s.withdraw n x ts).1 = .ok r) ↔ money x ≤ b) ∧
    (b < money x → (s.withdraw n x ts).2 = s) := by
  by_cases h : b < money x
  · rw [Store.withdraw_some_lt hb x ts h]
    refine ⟨iff_of_true rfl h, ?_, fun _ => rfl⟩
    constructor
    · rintro ⟨r, hr⟩
      cases hr
    · intro hle
      exact absurd h (not_lt.mpr hle)
  · rw [Store.withdraw_some_ge hb x ts h]
    refine ⟨iff_of_false (by simp) h, ?_, fun hlt => absurd hlt h⟩
    exact iff_of_true ⟨money (b - money x), rfl⟩ (not_lt.mp h)

/-- Witness for C2: on the seeded store, withdrawing 1.00 from account 9999
(balance 0.00) fails with insufficient funds and leaves the store unchanged. -/
theorem withdraw_insufficient_iff_witness :
    (seeded.withdraw "9999" 1 0).1 = .error .insufficientFunds ∧
    (seeded.withdraw "9999" 1 0).2 = seeded := by
  have h := withdraw_insufficient_iff seeded "9999" 0 1 0 (by decide)
  exact ⟨h.1.mpr (by decide), h.2.2 (by decide)⟩

/-- C7: on an account holding a (normalized, as every stored balance is)
balance `b`, a succeeding `deposit n x` immediately followed by a succeeding
`withdraw n x` restores the balance to exactly `b`. -/
theorem deposit_then_withdraw_restores (s : Store) (n : String) (b x : ℚ)
    (t1 t2 : Nat) (hb : s.accounts n = some b) (hbn : money b = b) :
    (s.deposit n x t1).1 = .ok (b + money x) ∧
    ∀ r, ((s.deposit n x t1).2.withdraw n x t2).1 = .ok r →
      ((s.deposit n x t1).2.withdraw n x t2).2.accounts n = some b := by
  have hax : money (money x) = money x := money_idem x
  have hsum : money (b + money x) = b + money x := money_fix_add hbn hax
  have hdep := Store.deposit_some hb x t1
  have hacc : (s.deposit n x t1).2.accounts n = some (b + money x) := by
    rw [hdep]
    simp [hsum]
  constructor
  · rw [hdep]
    simp [hsum]
  · intro r hr
    by_cases hlt : b + money x < money x
    · rw [Store.withdraw_some_lt hacc x t2 hlt] at hr
      cases hr
    · rw [Store.withdraw_some_ge hacc x t2 hlt]
      have hsub : b + money x - money x = b := by ring
      simp [hsub, hbn]

/-- Witness for C7: seeded account 1001 (balance 500.00), deposit 50.75 then
withdraw 50.75; the balance is back to exactly 500.00. -/
theorem deposit_then_withdraw_restores_witness :
    ((seeded.deposit "1001" (5075 / 100) 0).2.withdraw "1001" (5075 / 100) 1).2.accounts "1001"
      = some 500 := by
  have h := deposit_then_withdraw_restores seeded "1001" 500 (5075 / 100) 0 1
    (by decide) (by decide)
  exact h.2 500 (by decide)

/-- C10: every Store call — succeed or raise — leaves the balance and the
transaction log of every account other than the one it addresses exactly
unchanged. -/
theorem store_ops_frame (s : Store) (op : Op) (m : String)
    (hm : m ≠ op.account) :
    (s.apply op).accounts m = s.accounts m ∧ (s.apply op).log m = s.log m := by
  cases op with
  | deposit n x ts =>
    simp only [Op.account] at hm
    cases hb : s.accounts n with
    | none => simp [Store.apply, Store.deposit, hb]
    | some b => simp [Store.apply, Store.deposit, hb, hm]
  | withdraw n x ts =>
    simp only [Op.account] at hm
    cases hb : s.accounts n with
    | none => simp [Store.apply, Store.withdraw, hb]
    | some b =>
      by_cases h : b < money x
      · simp [Store.apply, Store.withdraw, hb, h]
      · simp [Store.apply, Store.withdraw, hb, h, hm]
  | get_balance n => exact ⟨rfl, rfl⟩
  | transactions n => exact ⟨rfl, rfl⟩

/-- Witness for C10: a deposit to account 1001 leaves the balance and log of
account 1002 untouched. -/
theorem store_ops_frame_witness :
    (seeded.apply (Op.deposit "1001" 50 0)).accounts "1002" = seeded.accounts "1002" ∧
    (seeded.apply (Op.deposit "1001" 50 0)).log "1002" = seeded.log "1002" :=
  store_ops_frame seeded (Op.deposit "1001" 50 0) "1002" (by decide)

/-- C3: for a non-empty token not yet in the cache, two successive
`idempotent_response` calls whose second happens within the TTL window of the
first run the wrapped operation exactly once — the first call runs it
(advancing the operation state once and returning its payload), and the second
call returns the identical payload while leaving the operation state
untouched. -/
theorem idempotency_exactly_once {σ α : Type} (k : String) (compute : σ → α × σ)
    (t1 t2 : ℚ) (c : Cache α) (s : σ)
    (hk : k ≠ "") (hmiss : c.entries k = none) (httl : t2 - t1 ≤ IDEMP_TTL) :
    (idempotent_response (some k) compute t1 c s).1 = (compute s).1 ∧
    (idempotent_response (some k) compute t1 c s).2.2 = (compute s).2 ∧
    (idempotent_response (some k) compute t2
        (idempotent_response (some k) compute t1 c s).2.1
        (idempotent_response (some k) compute t1 c s).2.2).1
      = (idempotent_response (some k) compute t1 c s).1 ∧
    (idempotent_response (some k) compute t2
        (idempotent_response (some k) compute t1 c s).2.1
        (idempotent_response (some k) compute t1 c s).2.2).2.2
      = (idempotent_response (some k) compute t1 c s).2.2 := by
  have hp1 : (c.purge t1).entries k = none := by
    simp [Cache.purge, hmiss]
  have h1 : idempotent_response (some k) compute t1 c s =
      ((compute s).1,
        ⟨fun x => if x = k then some (t1, (compute s).1) else (c.purge t1).entries x⟩,
        (compute s).2) := by
    simp [idempotent_response, hk, hp1]
  rw [h1]
  have hp2 : ((Cache.mk fun x =>
        if x = k then some (t1, (compute s).1) else (c.purge t1).entries x).purge
          t2).entries k = some (t1, (compute s).1) := by
    simp [Cache.purge, not_lt.mpr httl]
  refine ⟨rfl, rfl, ?_, ?_⟩ <;> simp [idempotent_response, hk, hp2]

/-- Witness for C3: token "idem-123", operation state an invocation counter.
The first call (at time 0) returns payload 0 and bumps the counter to 1; the
second call (at time 300, inside the 600-second TTL) returns the same payload
and the counter stays at 1: the operation ran exactly once. -/
theorem idempotency_exactly_once_witness :
    (idempotent_response (some "idem-123") (fun m : Nat => (m, m + 1)) 0
        ⟨fun _ => none⟩ 0).1 = 0 ∧
    (idempotent_response (some "idem-123") (fun m : Nat => (m, m + 1)) 0
        ⟨fun _ => none⟩ 0).2.2 = 1 ∧
    (idempotent_response (some "idem-123") (fun m : Nat => (m, m + 1)) 300
        (idempotent_response (some "idem-123") (fun m : Nat => (m, m + 1)) 0
          ⟨fun _ => none⟩ 0).2.1
        (idempotent_response (some "idem-123") (fun m : Nat => (m, m + 1)) 0
          ⟨fun _ => none⟩ 0).2.2).1 = 0 ∧
    (idempotent_response (some "idem-123") (fun m : Nat => (m, m + 1)) 300
        (idempotent_response (some "idem-123") (fun m : Nat => (m, m + 1)) 0
          ⟨fun _ => none⟩ 0).2.1
        (idempotent_response (some "idem-123") (fun m : Nat => (m, m + 1)) 0
          ⟨fun _ => none⟩ 0).2.2).2.2 = 1 := by
  have h := idempotency_exactly_once "idem-123" (fun m : Nat => (m, m + 1))
    0 300 ⟨fun _ => none⟩ 0 (by decide) rfl (by decide)
  exact ⟨h.1, h.2.1, h.2.2.1.trans h.1, h.2.2.2.trans h.2.1⟩

/-- C8: a cache entry older than the TTL at call time is never served: the
sweep removes it, the wrapped operation is invoked again, and the fresh result
is stored under the token with the timestamp of the call. -/
theorem expired_entry_not_served {σ α : Type} (k : String) (compute : σ → α × σ)
    (t0 now : ℚ) (v : α) (c : Cache α) (s : σ)
    (hk : k ≠ "") (hent : c.entries k = some (t0, v))
    (hexp : now - t0 > IDEMP_TTL) :
    (idempotent_response (some k) compute now c s).1 = (compute s).1 ∧
    (idempotent_response (some k) compute now c s).2.1.entries k
      = some (now, (compute s).1) ∧
    (idempotent_response (some k) compute now c s).2.2 = (compute s).2 := by
  have hp : (c.purge now).entries k = none := by
    simp [Cache.purge, hent, hexp]
  refine ⟨?_, ?_, ?_⟩ <;> simp [idempotent_response, hk, hp]

/-- Witness for C8: an entry stored at time 0 with payload 42, looked up at
time 601 (past the 600-second TTL): the stale 42 is not served; the operation
runs (payload 7, counter 7 to 8) and is stored afresh at time 601. -/
theorem expired_entry_not_served_witness :
    (idempotent_response (some "k") (fun m : Nat => (m, m + 1)) 601
        ⟨fun x => if x = "k" then some (0, 42) else none⟩ 7).1 = 7 ∧
    (idempotent_response (some "k") (fun m : Nat => (m, m + 1)) 601
        ⟨fun x => if x = "k" then some (0, 42) else none⟩ 7).2.1.entries "k"
      = some (601, 7) ∧
    (idempotent_response (some "k") (fun m : Nat => (m, m + 1)) 601
        ⟨fun x => if x = "k" then some (0, 42) else none⟩ 7).2.2 = 8 := by
  have h := expired_entry_not_served "k" (fun m : Nat => (m, m + 1)) 0 601 42
    ⟨fun x => if x = "k" then some (0, 42) else none⟩ 7
    (by decide) (by decide) (by decide)
  exact ⟨h.1, h.2.1, h.2.2⟩

/-- Counterexample to C4 as stated: starting from the seeded store, the
single-step sequence `deposit 9999 (-1)` leaves account 9999 with the negative
balance -1. -/
theorem balance_nonneg_cex :
    (seeded.run [Op.deposit "9999" (-1) 0]).accounts "9999" = some (-1) ∧
    ¬ (0 : ℚ) ≤ -1 := by
  refine ⟨?_, ?_⟩ <;> decide

/-- C1 amended: the Store itself performs no amount validation; non-positive
amounts are rejected only by the adapter `MoneyChange` validator before any
Store call is made.  On an existing account `Store.deposit` with `x ≤ 0`
succeeds, adds the normalized (non-positive) amount to the balance and appends
a record, and `Store.withdraw` with `x ≤ 0` is subject only to the
insufficient-funds check and otherwise also mutates and appends. -/
theorem nonpositive_rejected_by_adapter_applied_by_store (s : Store)
    (n : String) (b x : ℚ) (ts : Nat)
    (hb : s.accounts n = some b) (hx : x ≤ 0) :
    MoneyChange.positive x = .error "amount must be > 0" ∧
    (s.deposit n x ts).1 = .ok (money (b + money x)) ∧
    ((s.deposit n x ts).2.log n).length = (s.log n).length + 1 ∧
    (money x ≤ b →
      (s.withdraw n x ts).1 = .ok (money (b - money x)) ∧
      ((s.withdraw n x ts).2.log n).length = (s.log n).length + 1) := by
  refine ⟨by simp [MoneyChange.positive, hx], ?_, ?_, ?_⟩
  · rw [Store.deposit_some hb x ts]
  · rw [Store.deposit_some hb x ts]
    simp
  · intro hle
    rw [Store.withdraw_some_ge hb x ts (not_lt.mpr hle)]
    exact ⟨rfl, by simp⟩

/-- Witness for the amended C1 at account 9999 (balance 0.00) and amount -1:
the validator rejects it, yet the Store deposits it (balance becomes -1) and a
withdrawal of -1 also succeeds (balance would become +1). -/
theorem nonpositive_rejected_by_adapter_applied_by_store_witness :
    MoneyChange.positive (-1) = .error "amount must be > 0" ∧
    (seeded.deposit "9999" (-1) 0).1 = .ok (money (0 + money (-1))) ∧
    ((seeded.deposit "9999" (-1) 0).2.log "9999").length
      = (seeded.log "9999").length + 1 ∧
    (seeded.withdraw "9999" (-1) 0).1 = .ok (money (0 - money (-1))) ∧
    ((seeded.withdraw "9999" (-1) 0).2.log "9999").length
      = (seeded.log "9999").length + 1 := by
  have h := nonpositive_rejected_by_adapter_applied_by_store seeded "9999" 0 (-1) 0
    (by decide) (by decide)
  have h2 := h.2.2.2 (by decide)
  exact ⟨h.1, h.2.1, h.2.2.1, h2.1, h2.2⟩

theorem apply_allNonneg {s : Store} (hs : s.allNonneg) {op : Op}
    (hop : op.nonnegAmount) : (s.apply op).allNonneg := by
  cases op with
  | deposit n x ts =>
    have hx : 0 ≤ money x := hop
    cases hb : s.accounts n with
    | none =>
      intro m c hm
      simp only [Store.apply, Store.deposit, hb] at hm
      exact hs m c hm
    | some b =>
      intro m c hm
      by_cases hmn : m = n
      · subst hmn
        simp [Store.apply, Store.deposit, hb] at hm
        have hbpos := hs m b hb
        rw [← hm]
        exact money_nonneg (by linarith)
      · simp [Store.apply, Store.deposit, hb, hmn] at hm
        exact hs m c hm
  | withdraw n x ts =>
    cases hb : s.accounts n with
    | none =>
      intro m c hm
      simp only [Store.apply, Store.withdraw, hb] at hm
      exact hs m c hm
    | some b =>
      by_cases hlt : b < money x
      · intro m c hm
        simp only [Store.apply, Store.withdraw, hb, if_pos hlt] at hm
        exact hs m c hm
      · intro m c hm
        by_cases hmn : m = n
        · subst hmn
          simp [Store.apply, Store.withdraw, hb, hlt] at hm
          rw [← hm]
          exact money_nonneg (by linarith [not_lt.mp hlt])
        · simp [Store.apply, Store.withdraw, hb, hlt, hmn] at hm
          exact hs m c hm
  | get_balance n => exact hs
  | transactions n => exact hs

theorem run_allNonneg {s : Store} (hs : s.allNonneg) {ops : List Op}
    (h : ∀ op ∈ ops, op.nonnegAmount) : (s.run ops).allNonneg := by
  induction ops generalizing s with
  | nil => exact hs
  | cons op rest ih =>
    exact ih (apply_allNonneg hs (h op (List.mem_cons_self op rest)))
      (fun o ho => h o (List.mem_cons_of_mem op ho))

theorem seeded_allNonneg : seeded.allNonneg := by
  intro n b hb
  simp only [seeded, Store.seed, Store.empty] at hb
  split_ifs at hb
  · injection hb with hb
    rw [← hb]
    decide
  · injection hb with hb
    rw [← hb]
    decide
  · injection hb with hb
    rw [← hb]
    decide

/-- C4 amended: starting from the seeded store, for every sequence of Store
calls in which every deposit has a non-negative normalized amount (which is
all the adapter validation lets through, since it requires `amount > 0`), every
account balance is non-negative after each step.  (Withdrawals can never drive
a balance negative; only a deposit of a negative amount — impossible through
the adapter — can, as the counterexample shows.) -/
theorem balance_nonneg_amended (ops : List Op)
    (h : ∀ op ∈ ops, op.nonnegAmount) (n : String) (b : ℚ)
    (hb : (seeded.run ops).accounts n = some b) : 0 ≤ b :=
  run_allNonneg seeded_allNonneg h n b hb

/-- Witness for the amended C4: deposit 50 to 1001 then a failing withdrawal
from 9999; account 1001 ends at 550.00, non-negative. -/
theorem balance_nonneg_amended_witness :
    (seeded.run [Op.deposit "1001" 50 0, Op.withdraw "9999" 1 1]).accounts "1001"
      = some 550 ∧ (0 : ℚ) ≤ 550 :=
  ⟨by decide,
    balance_nonneg_amended [Op.deposit "1001" 50 0, Op.withdraw "9999" 1 1]
      (by decide) "1001" 550 (by decide)⟩

theorem apply_log_extend (s : Store) (op : Op) (n : String) :
    ∃ t, (s.apply op).log n = s.log n ++ t := by
  cases op with
  | deposit n0 x ts =>
    cases hb : s.accounts n0 with
    | none => exact ⟨[], by simp [Store.apply, Store.deposit, hb]⟩
    | some b =>
      by_cases hmn : n = n0
      · subst hmn
        exact ⟨[⟨ts, "deposit", money x, money (b + money x)⟩],
          by simp [Store.apply, Store.deposit, hb]⟩
      · exact ⟨[], by simp [Store.apply, Store.deposit, hb, hmn]⟩
  | withdraw n0 x ts =>
    cases hb : s.accounts n0 with
    | none => exact ⟨[], by simp [Store.apply, Store.withdraw, hb]⟩
    | some b =>
      by_cases hlt : b < money x
      · exact ⟨[], by simp [Store.apply, Store.withdraw, hb, hlt]⟩
      · by_cases hmn : n = n0
        · subst hmn
          exact ⟨[⟨ts, "withdraw", money x, money (b - money x)⟩],
            by simp [Store.apply, Store.withdraw, hb, hlt]⟩
        · exact ⟨[], by simp [Store.apply, Store.withdraw, hb, hlt, hmn]⟩
  | get_balance n0 => exact ⟨[], by simp [Store.apply]⟩
  | transactions n0 => exact ⟨[], by simp [Store.apply]⟩

theorem apply_normalized {s : Store} (hs : s.normalized) (op : Op) :
    (s.apply op).normalized := by
  cases op with
  | deposit n x ts =>
    cases hb : s.accounts n with
    | none =>
      intro m c hm
      simp only [Store.apply, Store.deposit, hb] at hm
      exact hs m c hm
    | some b =>
      intro m c hm
      by_cases hmn : m = n
      · subst hmn
        simp [Store.apply, Store.deposit, hb] at hm
        rw [← hm]
        exact money_idem _
      · simp [Store.apply, Store.deposit, hb, hmn] at hm
        exact hs m c hm
  | withdraw n x ts =>
    cases hb : s.accounts n with
    | none =>
      intro m c hm
      simp only [Store.apply, Store.withdraw, hb] at hm
      exact hs m c hm
    | some b =>
      by_cases hlt : b < money x
      · intro m c hm
        simp only [Store.apply, Store.withdraw, hb, if_pos hlt] at hm
        exact hs m c hm
      · intro m c hm
        by_cases hmn : m = n
        · subst hmn
          simp [Store.apply, Store.withdraw, hb, hlt] at hm
          rw [← hm]
          exact money_idem _
        · simp [Store.apply, Store.withdraw, hb, hlt, hmn] at hm
          exact hs m c hm
  | get_balance n => exact hs
  | transactions n => exact hs

theorem apply_logConsistent {s : Store} (hs : s.logConsistent) (op : Op) :
    (s.apply op).logConsistent := by
  cases op with
  | deposit n x ts =>
    cases hb : s.accounts n with
    | none =>
      intro m c hm tx htx
      simp only [Store.apply, Store.deposit, hb] at hm htx
      exact hs m c hm tx htx
    | some b =>
      intro m c hm tx htx
      by_cases hmn : m = n
      · subst hmn
        simp [Store.apply, Store.deposit, hb] at hm htx
        rw [← htx]
        exact hm
      · simp [Store.apply, Store.deposit, hb, hmn] at hm htx
        exact hs m c hm tx htx
  | withdraw n x ts =>
    cases hb : s.accounts n with
    | none =>
      intro m c hm tx htx
      simp only [Store.apply, Store.withdraw, hb] at hm htx
      exact hs m c hm tx htx
    | some b =>
      by_cases hlt : b < money x
      · intro m c hm tx htx
        simp only [Store.apply, Store.withdraw, hb, if_pos hlt] at hm htx
        exact hs m c hm tx htx
      · intro m c hm tx htx
        by_cases hmn : m = n
        · subst hmn
          simp [Store.apply, Store.withdraw, hb, hlt] at hm htx
          rw [← htx]
          exact hm
        · simp [Store.apply, Store.withdraw, hb, hlt, hmn] at hm htx
          exact hs m c hm tx htx
  | get_balance n => exact hs
  | transactions n => exact hs

theorem run_normalized {s : Store} (hs : s.normalized) (ops : List Op) :
    (s.run ops).normalized := by
  induction ops generalizing s with
  | nil => exact hs
  | cons op rest ih => exact ih (apply_normalized hs op)

theorem run_logConsistent {s : Store} (hs : s.logConsistent) (ops : List Op) :
    (s.run ops).logConsistent := by
  induction ops generalizing s with
  | nil => exact hs
  | cons op rest ih => exact ih (apply_logConsistent hs op)

theorem seeded_normalized : seeded.normalized := by
  intro n b hb
  simp only [seeded, Store.seed, Store.empty] at hb
  split_ifs at hb
  · injection hb with hb
    rw [← hb]
    exact money_idem _
  · injection hb with hb
    rw [← hb]
    exact money_idem _
  · injection hb with hb
    rw [← hb]
    exact money_idem _

theorem seeded_logConsistent : seeded.logConsistent := by
  intro n b _ tx htx
  cases htx

/-- C5: along any run from the seeded store, one further call only ever
appends to the transaction log of an account (its length never decreases, existing
entries are untouched), and whenever the log of an existing account is
non-empty, the balance field of its last record equals the balance `get_balance`
returns. -/
theorem log_append_only_and_balance_consistent (ops : List Op) (op : Op)
    (n : String) :
    (∃ t, (seeded.run (ops ++ [op])).log n = (seeded.run ops).log n ++ t) ∧
    (∀ b, (seeded.run ops).accounts n = some b →
      ∀ tx, ((seeded.run ops).log n).getLast? = some tx →
        (seeded.run ops).get_balance n = .ok tx.balance) := by
  constructor
  · have h : seeded.run (ops ++ [op]) = (seeded.run ops).apply op := by
      simp [Store.run, List.foldl_append]
    rw [h]
    exact apply_log_extend (seeded.run ops) op n
  · intro b hb tx htx
    have h1 : tx.balance = b := run_logConsistent seeded_logConsistent ops n b hb tx htx
    have h2 : money b = b := run_normalized seeded_normalized ops n b hb
    simp [Store.get_balance, hb, h2, h1]

/-- Witness for C5: after depositing 50 to account 1001, the next call only
appends, and the last log record balance (550.00) is what `get_balance`
reports. -/
theorem log_append_only_and_balance_consistent_witness :
    (∃ t, (seeded.run ([Op.deposit "1001" 50 0] ++ [Op.withdraw "1001" 1 1])).log "1001"
        = (seeded.run [Op.deposit "1001" 50 0]).log "1001" ++ t) ∧
    (seeded.run [Op.deposit "1001" 50 0]).get_balance "1001" = .ok 550 := by
  have h := log_append_only_and_balance_consistent [Op.deposit "1001" 50 0]
    (Op.withdraw "1001" 1 1) "1001"
  refine ⟨h.1, ?_⟩
  exact h.2 550 (by decide) ⟨0, "deposit", 50, 550⟩ (by decide)
